import Mathlib

/-!
Verification of the edge/point reference table `vtkGenericEdgeTable`
(src/Filtering/vtkGenericEdgeTable.h).

The excerpt contains the class header only; the bodies of the table
operations (`InsertEdge`, `CheckEdge`, `RemoveEdge`, `Initialize`, ...)
live in a `.cxx` file that is not part of the excerpt, so those
operations are modelled from the specification (spec.md §3, §4, §8); the
affected definitions say so in their doc comments.  The nested classes
`PointEntry` and `EdgeEntry`, including the copy constructor and the
assignment operator of `PointEntry`, are defined inline in the header and
are embedded from that source code directly.

`vtkIdType` is modelled as `Int`.  The table stores coordinates and
attribute scalars verbatim and never computes with them, so the `double`
payload values are modelled by exact integers; only their storage and
retrieval is specified and verified.
-/

set_option autoImplicit false

namespace VtkGenericEdgeTable

/-- Edge-table entry, embedded from `vtkGenericEdgeTable::EdgeEntry`
(vtkGenericEdgeTable.h lines 181-223): the two endpoints, a reference
count, the to-split flag, the midpoint id `PtId` (`-1` when unset) and
the id of the cell that most recently touched the edge. -/
structure EdgeEntry where
  E1 : Int
  E2 : Int
  Reference : Int
  ToSplit : Bool
  PtId : Int
  CellId : Int
deriving DecidableEq

/-- Point-table record, after `vtkGenericEdgeTable::PointEntry`: a point
id, a coordinate triple, the attribute vector and a reference count.
Payload values are exact integers (see the file comment). -/
structure PointRec where
  PointId : Int
  Coord : Int × Int × Int
  Scalar : List Int
  Reference : Int
deriving DecidableEq

/-- Modelled from the spec: the whole-table state of `vtkGenericEdgeTable`
(header lines 236-254): the chained edge table, the point table, the id
generator `LastPointId` and the attribute component count. -/
structure GenericEdgeTable where
  EdgeTable : List EdgeEntry
  HashPoints : List PointRec
  LastPointId : Int
  NumberOfComponents : Int
deriving DecidableEq

/-- Modelled from the spec (spec.md §4.1, Glossary): canonical form of an
undirected edge — the pair ordered so that `(a,b)` and `(b,a)` give the
same key.  The body of `vtkGenericEdgeTable::HashFunction` is not in the
excerpt; canonicalization before hashing/equality is what §4.1 demands. -/
def ecanon (a b : Int) : Int × Int :=
  if a ≤ b then (a, b) else (b, a)

/-- The key under which an entry is stored. -/
def edgeKey (e : EdgeEntry) : Int × Int := (e.E1, e.E2)

/-- Modelled from the spec: lookup of the entry for edge `(a,b)` in a
bucket chain; the first entry whose key equals the canonical pair. -/
def findEdge : List EdgeEntry → Int → Int → Option EdgeEntry
  | [], _, _ => none
  | e :: rest, a, b => if edgeKey e = ecanon a b then some e else findEdge rest a b

/-- Modelled from the spec: rewrite the entry stored under the canonical
key of `(a,b)` with `f`, leaving every other entry alone. -/
def updateEdge (a b : Int) (f : EdgeEntry → EdgeEntry) : List EdgeEntry → List EdgeEntry
  | [] => []
  | e :: rest =>
      (if edgeKey e = ecanon a b then f e else e) :: updateEdge a b f rest

/-- Entry rewrite used by the splitting insert: mark the entry to split
and assign the midpoint id `pid`. -/
def bumpSplit (pid : Int) (old : EdgeEntry) : EdgeEntry :=
  { old with ToSplit := true, PtId := pid }

/-- Entry rewrite used by `RemoveEdge`: decrement the reference count. -/
def decRef (old : EdgeEntry) : EdgeEntry :=
  { old with Reference := old.Reference - 1 }

/-- Entry rewrite used by `IncrementEdgeReferenceCount`: increment the
reference count and record the visiting cell. -/
def incRef (cid : Int) (old : EdgeEntry) : EdgeEntry :=
  { old with Reference := old.Reference + 1, CellId := cid }

/-- Modelled from the spec: drop the entry stored under the canonical key
of `(a,b)`. -/
def deleteEdge (a b : Int) : List EdgeEntry → List EdgeEntry
  | [] => []
  | e :: rest =>
      if edgeKey e = ecanon a b then deleteEdge a b rest
      else e :: deleteEdge a b rest

/-- Modelled from the spec (spec.md §4.1): the non-splitting
`InsertEdge(e1,e2,cellId,ref)` (header line 59) — register an edge as
seen; a no-op when the canonical edge already exists, otherwise a new
entry with `ToSplit = false`, `PtId` unset and the supplied reference
count. -/
def InsertEdgeNoSplit (t : GenericEdgeTable) (e1 e2 cellId : Int) (ref : Int) :
    GenericEdgeTable :=
  match findEdge t.EdgeTable e1 e2 with
  | some _ => t
  | none =>
      { t with EdgeTable :=
          { E1 := (ecanon e1 e2).1, E2 := (ecanon e1 e2).2, Reference := ref,
            ToSplit := false, PtId := -1, CellId := cellId } :: t.EdgeTable }

/-- Modelled from the spec (spec.md §4.1, §4.3): the splitting
`InsertEdge(e1,e2,cellId,ref,toSplit,ptId)` (header lines 54-55) with
`toSplit` true — marks the edge for splitting and mints a fresh midpoint
id from the generator if one was not already assigned; returns the
(possibly pre-existing) midpoint id together with the new state. -/
def InsertEdgeSplit (t : GenericEdgeTable) (e1 e2 cellId : Int) (ref : Int) :
    GenericEdgeTable × Int :=
  match findEdge t.EdgeTable e1 e2 with
  | some e =>
      if e.PtId = -1 then
        ({ t with
             EdgeTable := updateEdge e1 e2 (bumpSplit (t.LastPointId + 1)) t.EdgeTable,
             LastPointId := t.LastPointId + 1 }, t.LastPointId + 1)
      else (t, e.PtId)
  | none =>
      ({ t with
           EdgeTable :=
             { E1 := (ecanon e1 e2).1, E2 := (ecanon e1 e2).2, Reference := ref,
               ToSplit := true, PtId := t.LastPointId + 1, CellId := cellId }
               :: t.EdgeTable,
           LastPointId := t.LastPointId + 1 }, t.LastPointId + 1)

/-- Modelled from the spec (spec.md §4.1, §7): `RemoveEdge` (header line
64) — decrement the reference count of the canonical edge, deleting the
entry when the count reaches zero, and return the count after the
decrement; an absent edge is a caller error reported as `none`. -/
def RemoveEdge (t : GenericEdgeTable) (e1 e2 : Int) :
    Option (GenericEdgeTable × Int) :=
  match findEdge t.EdgeTable e1 e2 with
  | none => none
  | some e =>
      if e.Reference - 1 ≤ 0 then
        some ({ t with EdgeTable := deleteEdge e1 e2 t.EdgeTable }, e.Reference - 1)
      else
        some ({ t with EdgeTable := updateEdge e1 e2 decRef t.EdgeTable },
              e.Reference - 1)

/-- Modelled from the spec (spec.md §4.1): `CheckEdge` (header line 69) —
non-mutating lookup returning the split state and the midpoint id: true
plus the id exactly when the edge exists, is marked to split and has an
assigned midpoint. -/
def CheckEdge (t : GenericEdgeTable) (e1 e2 : Int) : Bool × Int :=
  match findEdge t.EdgeTable e1 e2 with
  | some e => if e.ToSplit = true ∧ e.PtId ≠ -1 then (true, e.PtId) else (false, -1)
  | none => (false, -1)

/-- Modelled from the spec (spec.md §4.1): `IncrementEdgeReferenceCount`
(header lines 73-74) — a further visiting cell announces interest in an
edge already known to the table; returns the incremented count, `none`
when the edge is absent. -/
def IncrementEdgeReferenceCount (t : GenericEdgeTable) (e1 e2 cellId : Int) :
    Option (GenericEdgeTable × Int) :=
  match findEdge t.EdgeTable e1 e2 with
  | none => none
  | some e =>
      some ({ t with EdgeTable := updateEdge e1 e2 (incRef cellId) t.EdgeTable },
            e.Reference + 1)

/-- Modelled from the spec (spec.md §4.1): `CheckEdgeReferenceCount`
(header line 78) — non-mutating read of the reference count, 0 when the
edge is absent. -/
def CheckEdgeReferenceCount (t : GenericEdgeTable) (e1 e2 : Int) : Int :=
  match findEdge t.EdgeTable e1 e2 with
  | none => 0
  | some e => e.Reference

/-- Modelled from the spec (spec.md §4.3): `Initialize(start)` (header
line 82) seeds the id generator: `LastPointId := start`.  (The source
method name cannot be used verbatim here.) -/
def InitializeTable (t : GenericEdgeTable) (start : Int) : GenericEdgeTable :=
  { t with LastPointId := start }

/-- Modelled from the spec (spec.md §4.3): `GetLastPointId` (header line
86) — current generator value, non-mutating. -/
def GetLastPointId (t : GenericEdgeTable) : Int := t.LastPointId

/-- Modelled from the spec (spec.md §4.3): `IncrementLastPointId` (header
line 90) — advance the generator by exactly one. -/
def IncrementLastPointId (t : GenericEdgeTable) : GenericEdgeTable :=
  { t with LastPointId := t.LastPointId + 1 }

/-- Modelled from the spec: point-table lookup by point id. -/
def findPoint : List PointRec → Int → Option PointRec
  | [], _ => none
  | p :: rest, ptId => if p.PointId = ptId then some p else findPoint rest ptId

/-- Modelled from the spec (spec.md §4.2): `InsertPointAndScalar` (header
line 115) — store a point with its coordinate and its attribute vector of
`NumberOfComponents` values (the entry's buffer holds exactly that many,
as `memcpy` of `NumberOfComponents` doubles would). -/
def InsertPointAndScalar (t : GenericEdgeTable) (ptId : Int)
    (pt : Int × Int × Int) (s : List Int) : GenericEdgeTable :=
  { t with HashPoints :=
      { PointId := ptId, Coord := pt,
        Scalar := s.take t.NumberOfComponents.toNat, Reference := 1 }
        :: t.HashPoints }

/-- Modelled from the spec (spec.md §4.2): the copying `CheckPoint(ptId,
point, scalar)` (header line 109) — existence test that also returns the
stored coordinate and attribute vector. -/
def CheckPoint (t : GenericEdgeTable) (ptId : Int) :
    Option ((Int × Int × Int) × List Int) :=
  match findPoint t.HashPoints ptId with
  | none => none
  | some p => some (p.Coord, p.Scalar)

/-- An empty table, as produced by the constructor, with one attribute
component configured. -/
def emptyTable : GenericEdgeTable :=
  { EdgeTable := [], HashPoints := [], LastPointId := 0, NumberOfComponents := 1 }

/-- A driver-visible mutating operation on the edge table, used to state
lifetime invariants over arbitrary interleavings of calls. -/
inductive Op where
  | insertNoSplit (e1 e2 cellId : Int) (ref : Int)
  | insertSplit (e1 e2 cellId : Int) (ref : Int)
  | removeEdge (e1 e2 : Int)
  | incrRef (e1 e2 cellId : Int)
  | incrLastPointId
deriving DecidableEq

/-- Apply one driver operation to the table (a failing `RemoveEdge` or
`IncrementEdgeReferenceCount` mutates nothing). -/
def applyOp (t : GenericEdgeTable) : Op → GenericEdgeTable
  | .insertNoSplit e1 e2 cid r => InsertEdgeNoSplit t e1 e2 cid r
  | .insertSplit e1 e2 cid r => (InsertEdgeSplit t e1 e2 cid r).1
  | .removeEdge e1 e2 =>
      match RemoveEdge t e1 e2 with
      | none => t
      | some tr => tr.1
  | .incrRef e1 e2 cid =>
      match IncrementEdgeReferenceCount t e1 e2 cid with
      | none => t
      | some tr => tr.1
  | .incrLastPointId => IncrementLastPointId t

/-- Apply a sequence of driver operations in order. -/
def applyOps (t : GenericEdgeTable) (ops : List Op) : GenericEdgeTable :=
  ops.foldl applyOp t

/-- The midpoint id minted by one operation, if it mints one: only the
splitting insert mints, and only when no midpoint was assigned yet. -/
def opMint (t : GenericEdgeTable) : Op → Option Int
  | .insertSplit e1 e2 _ _ =>
      match findEdge t.EdgeTable e1 e2 with
      | some e => if e.PtId = -1 then some (t.LastPointId + 1) else none
      | none => some (t.LastPointId + 1)
  | _ => none

/-- All midpoint ids minted while running `ops` from `t`, in order. -/
def mintedIds (t : GenericEdgeTable) : List Op → List Int
  | [] => []
  | op :: rest =>
      match opMint t op with
      | some pid => pid :: mintedIds (applyOp t op) rest
      | none => mintedIds (applyOp t op) rest

/-- `true` while the canonical edge `(a,b)` stays in the table after every
single step of `ops` — i.e. the entry is never evicted along the run. -/
def neverEvicted (t : GenericEdgeTable) (a b : Int) : List Op → Bool
  | [] => true
  | op :: rest =>
      (findEdge (applyOp t op).EdgeTable a b).isSome &&
        neverEvicted (applyOp t op) a b rest

/-- At most one entry per canonical edge: the stored keys are pairwise
distinct along the chain. -/
abbrev EdgeKeysDistinct (l : List EdgeEntry) : Prop :=
  (l.map edgeKey).Nodup

/-- Iterate `RemoveEdge` on the same edge `k` times, failing if any call
reports the edge absent. -/
def removeIter (t : GenericEdgeTable) (a b : Int) : Nat → Option GenericEdgeTable
  | 0 => some t
  | k + 1 =>
      match RemoveEdge t a b with
      | none => none
      | some tr => removeIter tr.1 a b k

/-- Canonicalization is symmetric: `(a,b)` and `(b,a)` give one key. -/
theorem ecanon_symm (a b : Int) : ecanon a b = ecanon b a := by
  unfold ecanon
  rcases le_total a b with h | h
  · by_cases h2 : b ≤ a
    · have hab : a = b := le_antisymm h h2
      subst hab; simp
    · simp [h, h2]
  · by_cases h1 : a ≤ b
    · have hab : a = b := le_antisymm h1 h
      subst hab; simp
    · simp [h, h1]

/-- Lookup depends only on the canonical key. -/
theorem findEdge_congr (l : List EdgeEntry) (a b c d : Int)
    (h : ecanon a b = ecanon c d) : findEdge l a b = findEdge l c d := by
  induction l with
  | nil => rfl
  | cons e rest ih => simp [findEdge, h, ih]

/-- Lookup is insensitive to the endpoint order. -/
theorem findEdge_symm (l : List EdgeEntry) (a b : Int) :
    findEdge l b a = findEdge l a b :=
  findEdge_congr l b a a b (ecanon_symm b a)

/-- A lookup misses exactly when no entry carries the canonical key. -/
theorem findEdge_eq_none (l : List EdgeEntry) (a b : Int) :
    findEdge l a b = none ↔ ∀ e ∈ l, edgeKey e ≠ ecanon a b := by
  induction l with
  | nil => simp [findEdge]
  | cons e rest ih =>
      by_cases h : edgeKey e = ecanon a b <;> simp [findEdge, h, ih]

/-- How lookup interacts with a key-preserving rewrite of one entry. -/
theorem findEdge_updateEdge (c d a b : Int) (f : EdgeEntry → EdgeEntry)
    (hf : ∀ e, edgeKey (f e) = edgeKey e) (l : List EdgeEntry) :
    findEdge (updateEdge c d f l) a b =
      if ecanon c d = ecanon a b then (findEdge l a b).map f else findEdge l a b := by
  induction l with
  | nil => simp [findEdge, updateEdge]
  | cons e rest ih =>
      by_cases heq : ecanon c d = ecanon a b
      · by_cases hcd : edgeKey e = ecanon c d
        · have hab : edgeKey e = ecanon a b := heq ▸ hcd
          simp [updateEdge, findEdge, hcd, hab, heq, hf]
        · have hab : ¬ edgeKey e = ecanon a b := fun hx => hcd (heq ▸ hx)
          simp [updateEdge, findEdge, hcd, hab, heq, ih]
      · by_cases hcd : edgeKey e = ecanon c d
        · have hab : ¬ edgeKey e = ecanon a b := by rw [hcd]; exact heq
          have hfab : ¬ edgeKey (f e) = ecanon a b := by rw [hf]; exact hab
          simp [updateEdge, findEdge, hcd, hfab, heq, ih]
        · simp [updateEdge, findEdge, hcd, heq, ih]

/-- How lookup interacts with deletion of one canonical key. -/
theorem findEdge_deleteEdge (c d a b : Int) (l : List EdgeEntry) :
    findEdge (deleteEdge c d l) a b =
      if ecanon c d = ecanon a b then none else findEdge l a b := by
  induction l with
  | nil => simp [findEdge, deleteEdge]
  | cons e rest ih =>
      by_cases heq : ecanon c d = ecanon a b
      · by_cases hcd : edgeKey e = ecanon c d
        · simp [deleteEdge, hcd, heq, ih]
        · have hab : ¬ edgeKey e = ecanon a b := fun hx => hcd (heq ▸ hx)
          simp [deleteEdge, findEdge, hcd, hab, heq, ih]
      · by_cases hcd : edgeKey e = ecanon c d
        · have hab : ¬ edgeKey e = ecanon a b := by rw [hcd]; exact heq
          simp [deleteEdge, findEdge, hcd, hab, heq, ih]
        · simp [deleteEdge, findEdge, hcd, heq, ih]

/-- A key-preserving rewrite leaves the key chain untouched. -/
theorem keys_updateEdge (a b : Int) (f : EdgeEntry → EdgeEntry)
    (hf : ∀ e, edgeKey (f e) = edgeKey e) (l : List EdgeEntry) :
    (updateEdge a b f l).map edgeKey = l.map edgeKey := by
  induction l with
  | nil => rfl
  | cons e rest ih =>
      simp only [updateEdge, List.map_cons, ih]
      split
      · rw [hf]
      · rfl

/-- Deletion only drops keys from the chain. -/
theorem keys_deleteEdge_sublist (a b : Int) (l : List EdgeEntry) :
    ((deleteEdge a b l).map edgeKey).Sublist (l.map edgeKey) := by
  induction l with
  | nil => simp [deleteEdge]
  | cons e rest ih =>
      simp only [deleteEdge]
      split
      · exact ih.cons _
      · simp only [List.map_cons]
        exact List.Sublist.cons₂ (edgeKey e) ih

/-- The key of a freshly built entry is the canonical pair it was built from. -/
theorem edgeKey_mk (p : Int × Int) (r : Int) (ts : Bool) (pid cid : Int) :
    edgeKey { E1 := p.1, E2 := p.2, Reference := r, ToSplit := ts,
              PtId := pid, CellId := cid } = p := rfl

/-- `bumpSplit` never touches the key. -/
theorem edgeKey_bumpSplit (pid : Int) (e : EdgeEntry) :
    edgeKey (bumpSplit pid e) = edgeKey e := rfl

/-- `decRef` never touches the key. -/
theorem edgeKey_decRef (e : EdgeEntry) : edgeKey (decRef e) = edgeKey e := rfl

/-- `incRef` never touches the key. -/
theorem edgeKey_incRef (cid : Int) (e : EdgeEntry) :
    edgeKey (incRef cid e) = edgeKey e := rfl

/-- Unfolding lemma for lookup on a non-empty chain. -/
theorem findEdge_cons (e : EdgeEntry) (l : List EdgeEntry) (a b : Int) :
    findEdge (e :: l) a b = if edgeKey e = ecanon a b then some e else findEdge l a b := rfl

/-- Prepending an entry whose key misses the chain keeps keys distinct. -/
theorem dk_cons_of_absent (l : List EdgeEntry) (c d : Int) (e : EdgeEntry)
    (hkey : edgeKey e = ecanon c d) (habs : findEdge l c d = none)
    (h : EdgeKeysDistinct l) : EdgeKeysDistinct (e :: l) := by
  unfold EdgeKeysDistinct at h ⊢
  rw [List.map_cons, List.nodup_cons]
  refine ⟨?_, h⟩
  intro hmem
  rcases List.mem_map.mp hmem with ⟨e2, he2l, hk2⟩
  exact (findEdge_eq_none l c d).mp habs e2 he2l (by rw [hk2, hkey])

/-- At most one entry per canonical edge survives every driver operation. -/
theorem dk_applyOp (t : GenericEdgeTable) (op : Op) (h : EdgeKeysDistinct t.EdgeTable) :
    EdgeKeysDistinct (applyOp t op).EdgeTable := by
  cases op with
  | insertNoSplit c d cid r =>
      rcases hfd : findEdge t.EdgeTable c d with _ | e2
      · simp only [applyOp, InsertEdgeNoSplit, hfd]
        exact dk_cons_of_absent _ c d _ rfl hfd h
      · simpa [applyOp, InsertEdgeNoSplit, hfd] using h
  | insertSplit c d cid r =>
      rcases hfd : findEdge t.EdgeTable c d with _ | e2
      · simp only [applyOp, InsertEdgeSplit, hfd]
        exact dk_cons_of_absent _ c d _ rfl hfd h
      · by_cases hp : e2.PtId = -1
        · simp only [applyOp, InsertEdgeSplit, hfd, if_pos hp]
          unfold EdgeKeysDistinct at h ⊢
          rw [keys_updateEdge c d (bumpSplit (t.LastPointId + 1)) (edgeKey_bumpSplit _)]
          exact h
        · simpa [applyOp, InsertEdgeSplit, hfd, hp] using h
  | removeEdge c d =>
      rcases hfd : findEdge t.EdgeTable c d with _ | e2
      · simpa [applyOp, RemoveEdge, hfd] using h
      · by_cases hr : e2.Reference - 1 ≤ 0
        · simp only [applyOp, RemoveEdge, hfd, if_pos hr]
          unfold EdgeKeysDistinct at h ⊢
          exact (keys_deleteEdge_sublist c d t.EdgeTable).nodup h
        · simp only [applyOp, RemoveEdge, hfd, if_neg hr]
          unfold EdgeKeysDistinct at h ⊢
          rw [keys_updateEdge c d decRef edgeKey_decRef]
          exact h
  | incrRef c d cid =>
      rcases hfd : findEdge t.EdgeTable c d with _ | e2
      · simpa [applyOp, IncrementEdgeReferenceCount, hfd] using h
      · simp only [applyOp, IncrementEdgeReferenceCount, hfd]
        unfold EdgeKeysDistinct at h ⊢
        rw [keys_updateEdge c d (incRef cid) (edgeKey_incRef cid)]
        exact h
  | incrLastPointId => exact h

/-- Distinct keys are preserved along any run of driver operations. -/
theorem dk_applyOps (ops : List Op) :
    ∀ t : GenericEdgeTable, EdgeKeysDistinct t.EdgeTable →
      EdgeKeysDistinct (applyOps t ops).EdgeTable := by
  induction ops with
  | nil => intro t h; exact h
  | cons op rest ih => intro t h; exact ih (applyOp t op) (dk_applyOp t op h)

/-- The canonical edge `(a,b)` currently holds a split entry with
assigned midpoint `pid`. -/
def SplitAssigned (t : GenericEdgeTable) (a b pid : Int) : Prop :=
  ∃ e, findEdge t.EdgeTable a b = some e ∧ e.ToSplit = true ∧ e.PtId = pid

/-- One driver operation never changes the midpoint of an entry that
survives it: as long as the edge is still present afterwards, it is still
split with the same `pid`. -/
theorem splitAssigned_applyOp (t : GenericEdgeTable) (a b pid : Int) (op : Op)
    (hpid : pid ≠ -1) (h : SplitAssigned t a b pid)
    (halive : (findEdge (applyOp t op).EdgeTable a b).isSome = true) :
    SplitAssigned (applyOp t op) a b pid := by
  obtain ⟨e, hf, hts, hp⟩ := h
  cases op with
  | insertNoSplit c d cid r =>
      rcases hfd : findEdge t.EdgeTable c d with _ | e2
      · by_cases heq : ecanon c d = ecanon a b
        · rw [findEdge_congr t.EdgeTable c d a b heq, hf] at hfd
          cases hfd
        · refine ⟨e, ?_, hts, hp⟩
          have hstep : findEdge (applyOp t (Op.insertNoSplit c d cid r)).EdgeTable a b
              = findEdge t.EdgeTable a b := by
            simp [applyOp, InsertEdgeNoSplit, hfd, findEdge_cons, edgeKey_mk, heq]
          rw [hstep, hf]
      · exact ⟨e, by simpa [applyOp, InsertEdgeNoSplit, hfd] using hf, hts, hp⟩
  | insertSplit c d cid r =>
      rcases hfd : findEdge t.EdgeTable c d with _ | e2
      · by_cases heq : ecanon c d = ecanon a b
        · rw [findEdge_congr t.EdgeTable c d a b heq, hf] at hfd
          cases hfd
        · refine ⟨e, ?_, hts, hp⟩
          have hstep : findEdge (applyOp t (Op.insertSplit c d cid r)).EdgeTable a b
              = findEdge t.EdgeTable a b := by
            simp [applyOp, InsertEdgeSplit, hfd, findEdge_cons, edgeKey_mk, heq]
          rw [hstep, hf]
      · by_cases hpm : e2.PtId = -1
        · by_cases heq : ecanon c d = ecanon a b
          · exfalso
            rw [findEdge_congr t.EdgeTable c d a b heq, hf] at hfd
            injection hfd with he
            rw [← he] at hpm
            exact hpid (hp ▸ hpm)
          · refine ⟨e, ?_, hts, hp⟩
            have hstep : findEdge (applyOp t (Op.insertSplit c d cid r)).EdgeTable a b
                = findEdge t.EdgeTable a b := by
              simp [applyOp, InsertEdgeSplit, hfd, hpm,
                findEdge_updateEdge c d a b (bumpSplit (t.LastPointId + 1))
                  (edgeKey_bumpSplit _), heq]
            rw [hstep, hf]
        · exact ⟨e, by simpa [applyOp, InsertEdgeSplit, hfd, hpm] using hf, hts, hp⟩
  | removeEdge c d =>
      rcases hfd : findEdge t.EdgeTable c d with _ | e2
      · exact ⟨e, by simpa [applyOp, RemoveEdge, hfd] using hf, hts, hp⟩
      · by_cases hr : e2.Reference - 1 ≤ 0
        · by_cases heq : ecanon c d = ecanon a b
          · exfalso
            have hnone : findEdge (applyOp t (Op.removeEdge c d)).EdgeTable a b = none := by
              simp [applyOp, RemoveEdge, hfd, hr, findEdge_deleteEdge, heq]
            rw [hnone] at halive
            simp at halive
          · refine ⟨e, ?_, hts, hp⟩
            have hstep : findEdge (applyOp t (Op.removeEdge c d)).EdgeTable a b
                = findEdge t.EdgeTable a b := by
              simp [applyOp, RemoveEdge, hfd, hr, findEdge_deleteEdge, heq]
            rw [hstep, hf]
        · by_cases heq : ecanon c d = ecanon a b
          · refine ⟨decRef e, ?_, hts, hp⟩
            have hstep : findEdge (applyOp t (Op.removeEdge c d)).EdgeTable a b
                = (findEdge t.EdgeTable a b).map decRef := by
              simp [applyOp, RemoveEdge, hfd, hr,
                findEdge_updateEdge c d a b decRef edgeKey_decRef, heq]
            rw [hstep, hf]
            rfl
          · refine ⟨e, ?_, hts, hp⟩
            have hstep : findEdge (applyOp t (Op.removeEdge c d)).EdgeTable a b
                = findEdge t.EdgeTable a b := by
              simp [applyOp, RemoveEdge, hfd, hr,
                findEdge_updateEdge c d a b decRef edgeKey_decRef, heq]
            rw [hstep, hf]
  | incrRef c d cid =>
      rcases hfd : findEdge t.EdgeTable c d with _ | e2
      · exact ⟨e, by simpa [applyOp, IncrementEdgeReferenceCount, hfd] using hf, hts, hp⟩
      · by_cases heq : ecanon c d = ecanon a b
        · refine ⟨incRef cid e, ?_, hts, hp⟩
          have hstep : findEdge (applyOp t (Op.incrRef c d cid)).EdgeTable a b
              = (findEdge t.EdgeTable a b).map (incRef cid) := by
            simp [applyOp, IncrementEdgeReferenceCount, hfd,
              findEdge_updateEdge c d a b (incRef cid) (edgeKey_incRef cid), heq]
          rw [hstep, hf]
          rfl
        · refine ⟨e, ?_, hts, hp⟩
          have hstep : findEdge (applyOp t (Op.incrRef c d cid)).EdgeTable a b
              = findEdge t.EdgeTable a b := by
            simp [applyOp, IncrementEdgeReferenceCount, hfd,
              findEdge_updateEdge c d a b (incRef cid) (edgeKey_incRef cid), heq]
          rw [hstep, hf]
  | incrLastPointId => exact ⟨e, hf, hts, hp⟩

/-- A surviving split entry keeps its midpoint along any whole run. -/
theorem splitAssigned_applyOps (a b pid : Int) (hpid : pid ≠ -1) :
    ∀ (ops : List Op) (t : GenericEdgeTable), SplitAssigned t a b pid →
      neverEvicted t a b ops = true → SplitAssigned (applyOps t ops) a b pid := by
  intro ops
  induction ops with
  | nil => intro t h _; exact h
  | cons op rest ih =>
      intro t h hne
      rw [neverEvicted, Bool.and_eq_true] at hne
      exact ih (applyOp t op) (splitAssigned_applyOp t a b pid op hpid h hne.1) hne.2

/-- `CheckEdge` on a split entry with an assigned midpoint reports it. -/
theorem CheckEdge_of_found (t : GenericEdgeTable) (a b : Int) (e : EdgeEntry)
    (hf : findEdge t.EdgeTable a b = some e) (hts : e.ToSplit = true)
    (hp : e.PtId ≠ -1) : CheckEdge t a b = (true, e.PtId) := by
  simp [CheckEdge, hf, hts, hp]

/-- `CheckEdge` is insensitive to the endpoint order. -/
theorem CheckEdge_symm (t : GenericEdgeTable) (x y : Int) :
    CheckEdge t y x = CheckEdge t x y := by
  unfold CheckEdge
  rw [findEdge_symm t.EdgeTable x y]

/-- C1: once `InsertEdge` with `toSplit` has assigned a midpoint id to a
canonical edge, every subsequent `CheckEdge` on that edge — queried with
either endpoint order, any number of times, after any run of operations
that never evicts the entry — returns exactly the assigned `ptId`; and
the table never holds two entries for one canonical edge. -/
theorem C1_midpoint_unique_stable (t : GenericEdgeTable) (a b cellId : Int)
    (ref : Int) (ops : List Op) (hdk : EdgeKeysDistinct t.EdgeTable)
    (habs : findEdge t.EdgeTable a b = none) (hlast : 0 ≤ t.LastPointId) :
    EdgeKeysDistinct (applyOps (InsertEdgeSplit t a b cellId ref).1 ops).EdgeTable ∧
    (neverEvicted (InsertEdgeSplit t a b cellId ref).1 a b ops = true →
      CheckEdge (applyOps (InsertEdgeSplit t a b cellId ref).1 ops) a b
          = (true, (InsertEdgeSplit t a b cellId ref).2) ∧
      CheckEdge (applyOps (InsertEdgeSplit t a b cellId ref).1 ops) b a
          = (true, (InsertEdgeSplit t a b cellId ref).2)) := by
  have hpid : t.LastPointId + 1 ≠ -1 := by omega
  have hsnd : (InsertEdgeSplit t a b cellId ref).2 = t.LastPointId + 1 := by
    simp [InsertEdgeSplit, habs]
  have hfst : (InsertEdgeSplit t a b cellId ref).1
      = { t with
            EdgeTable :=
              { E1 := (ecanon a b).1, E2 := (ecanon a b).2, Reference := ref,
                ToSplit := true, PtId := t.LastPointId + 1, CellId := cellId }
                :: t.EdgeTable,
            LastPointId := t.LastPointId + 1 } := by
    simp [InsertEdgeSplit, habs]
  have hdk1 : EdgeKeysDistinct (InsertEdgeSplit t a b cellId ref).1.EdgeTable := by
    rw [hfst]
    exact dk_cons_of_absent _ a b _ rfl habs hdk
  have hsa : SplitAssigned (InsertEdgeSplit t a b cellId ref).1 a b
      (t.LastPointId + 1) := by
    refine ⟨{ E1 := (ecanon a b).1, E2 := (ecanon a b).2, Reference := ref,
              ToSplit := true, PtId := t.LastPointId + 1, CellId := cellId },
            ?_, rfl, rfl⟩
    simp [hfst, findEdge_cons, edgeKey_mk]
  constructor
  · exact dk_applyOps ops _ hdk1
  · intro hne
    obtain ⟨e, hfe, hts, hpe⟩ := splitAssigned_applyOps a b _ hpid ops _ hsa hne
    have hcheck := CheckEdge_of_found _ a b e hfe hts (by rw [hpe]; exact hpid)
    rw [hsnd]
    refine ⟨?_, ?_⟩
    · rw [hcheck, hpe]
    · rw [CheckEdge_symm, hcheck, hpe]

/-- Closed instance of C1: concrete table, edge `(5,9)`, a run that
increments the reference count and removes once without evicting. -/
theorem C1_witness :
    EdgeKeysDistinct emptyTable.EdgeTable ∧
    findEdge emptyTable.EdgeTable 5 9 = none ∧
    0 ≤ emptyTable.LastPointId ∧
    neverEvicted (InsertEdgeSplit emptyTable 5 9 7 2).1 5 9
        [Op.incrRef 5 9 8, Op.removeEdge 9 5] = true ∧
    (CheckEdge (applyOps (InsertEdgeSplit emptyTable 5 9 7 2).1
          [Op.incrRef 5 9 8, Op.removeEdge 9 5]) 5 9
        = (true, (InsertEdgeSplit emptyTable 5 9 7 2).2) ∧
     CheckEdge (applyOps (InsertEdgeSplit emptyTable 5 9 7 2).1
          [Op.incrRef 5 9 8, Op.removeEdge 9 5]) 9 5
        = (true, (InsertEdgeSplit emptyTable 5 9 7 2).2)) :=
  ⟨by decide, by decide, by decide, by decide,
   (C1_midpoint_unique_stable emptyTable 5 9 7 2 [Op.incrRef 5 9 8, Op.removeEdge 9 5]
      (by decide) (by decide) (by decide)).2 (by decide)⟩

/-- C2: the table treats `(a,b)` and `(b,a)` as the same key — lookup is
order-insensitive on any chain, and after inserting `(a,b)` (with or
without a split request) querying `(b,a)` gives the same split state and
`ptId` as querying `(a,b)`. -/
theorem C2_canonical_symmetry (t : GenericEdgeTable) (a b cellId : Int)
    (ref : Int) (_hab : a ≠ b) :
    (∀ l : List EdgeEntry, findEdge l b a = findEdge l a b) ∧
    CheckEdge (InsertEdgeSplit t a b cellId ref).1 b a
      = CheckEdge (InsertEdgeSplit t a b cellId ref).1 a b ∧
    CheckEdge (InsertEdgeNoSplit t a b cellId ref) b a
      = CheckEdge (InsertEdgeNoSplit t a b cellId ref) a b :=
  ⟨fun l => findEdge_symm l a b,
   CheckEdge_symm (InsertEdgeSplit t a b cellId ref).1 a b,
   CheckEdge_symm (InsertEdgeNoSplit t a b cellId ref) a b⟩

/-- Closed instance of C2 at a concrete table and edge. -/
theorem C2_witness :
    (5 : Int) ≠ 9 ∧
    ((∀ l : List EdgeEntry, findEdge l 9 5 = findEdge l 5 9) ∧
     CheckEdge (InsertEdgeSplit emptyTable 5 9 7 2).1 9 5
       = CheckEdge (InsertEdgeSplit emptyTable 5 9 7 2).1 5 9 ∧
     CheckEdge (InsertEdgeNoSplit emptyTable 5 9 7 2) 9 5
       = CheckEdge (InsertEdgeNoSplit emptyTable 5 9 7 2) 5 9) :=
  ⟨by decide, C2_canonical_symmetry emptyTable 5 9 7 2 (by decide)⟩

/-- On a present edge, `RemoveEdge` always returns the decremented count,
whether or not it also deletes the entry. -/
theorem removeEdge_snd (t : GenericEdgeTable) (a b : Int) (e : EdgeEntry)
    (hf : findEdge t.EdgeTable a b = some e) :
    (RemoveEdge t a b).map (fun tr => tr.2) = some (e.Reference - 1) := by
  simp only [RemoveEdge, hf]
  split <;> rfl

/-- After `k` removals (with `k` below the reference count) the entry is
still present, with the count lowered by `k` and split data untouched. -/
theorem removeIter_mid (a b : Int) :
    ∀ (k : Nat) (t : GenericEdgeTable) (e : EdgeEntry),
      findEdge t.EdgeTable a b = some e → (k : Int) < e.Reference →
      ∃ tk ek, removeIter t a b k = some tk ∧
        findEdge tk.EdgeTable a b = some ek ∧
        ek.Reference = e.Reference - k ∧ ek.ToSplit = e.ToSplit ∧
        ek.PtId = e.PtId := by
  intro k
  induction k with
  | zero =>
      intro t e hf _
      exact ⟨t, e, rfl, hf, by simp, rfl, rfl⟩
  | succ k ih =>
      intro t e hf hk
      have hr : ¬ e.Reference - 1 ≤ 0 := by
        push_cast at hk
        omega
      have hiter : removeIter t a b (k + 1)
          = removeIter { t with EdgeTable := updateEdge a b decRef t.EdgeTable } a b k := by
        simp [removeIter, RemoveEdge, hf, hr]
      have hf2 : findEdge (updateEdge a b decRef t.EdgeTable) a b = some (decRef e) := by
        rw [findEdge_updateEdge a b a b decRef edgeKey_decRef]
        simp [hf]
      obtain ⟨tk, ek, h1, h2, h3, h4, h5⟩ :=
        ih { t with EdgeTable := updateEdge a b decRef t.EdgeTable } (decRef e) hf2
          (by push_cast at hk ⊢; simp only [decRef]; omega)
      refine ⟨tk, ek, by rw [hiter]; exact h1, h2, ?_, h4, h5⟩
      rw [h3]
      simp only [decRef]
      push_cast
      ring

/-- Exactly `Reference`-many removals delete the entry. -/
theorem removeIter_absent (a b : Int) :
    ∀ (n : Nat) (t : GenericEdgeTable) (e : EdgeEntry),
      findEdge t.EdgeTable a b = some e → e.Reference = (n : Int) → 1 ≤ n →
      ∃ tn, removeIter t a b n = some tn ∧ findEdge tn.EdgeTable a b = none := by
  intro n
  induction n with
  | zero => intro t e _ _ h; omega
  | succ n ih =>
      intro t e hf hr _
      by_cases hn : n = 0
      · subst hn
        have h0 : e.Reference - 1 ≤ 0 := by
          rw [hr]; norm_num
        have hiter : removeIter t a b 1
            = some { t with EdgeTable := deleteEdge a b t.EdgeTable } := by
          simp [removeIter, RemoveEdge, hf, h0]
        refine ⟨_, hiter, ?_⟩
        rw [findEdge_deleteEdge]
        simp
      · have hpos : ¬ e.Reference - 1 ≤ 0 := by
          rw [hr]; push_cast; omega
        have hiter : removeIter t a b (n + 1)
            = removeIter { t with EdgeTable := updateEdge a b decRef t.EdgeTable } a b n := by
          simp [removeIter, RemoveEdge, hf, hpos]
        have hf2 : findEdge (updateEdge a b decRef t.EdgeTable) a b = some (decRef e) := by
          rw [findEdge_updateEdge a b a b decRef edgeKey_decRef]
          simp [hf]
        obtain ⟨tn, h1, h2⟩ :=
          ih { t with EdgeTable := updateEdge a b decRef t.EdgeTable } (decRef e) hf2
            (by simp only [decRef]; rw [hr]; push_cast; ring) (by omega)
        exact ⟨tn, by rw [hiter]; exact h1, h2⟩

/-- C3: an edge inserted for splitting with reference count `n ≥ 1` needs
exactly `n` `RemoveEdge` calls: after each of the first `n-1` the edge is
still present (`CheckEdge` still reports the split) and the call returns
the decremented count `n-(k+1)`; the `n`-th call returns `0` and deletes
the entry, after which `CheckEdge` reports absence. -/
theorem C3_refcount_eviction (t : GenericEdgeTable) (a b cellId : Int) (n : Nat)
    (hn : 1 ≤ n) (habs : findEdge t.EdgeTable a b = none)
    (hlast : 0 ≤ t.LastPointId) :
    (∀ k : Nat, k < n →
       ∃ tk : GenericEdgeTable,
         removeIter (InsertEdgeSplit t a b cellId (n : Int)).1 a b k = some tk ∧
         (CheckEdge tk a b).1 = true ∧
         (RemoveEdge tk a b).map (fun tr => tr.2) = some ((n : Int) - (k + 1))) ∧
    (∃ tn : GenericEdgeTable,
       removeIter (InsertEdgeSplit t a b cellId (n : Int)).1 a b n = some tn ∧
       findEdge tn.EdgeTable a b = none ∧ CheckEdge tn a b = (false, -1)) := by
  have hfst : (InsertEdgeSplit t a b cellId (n : Int)).1
      = { t with
            EdgeTable :=
              { E1 := (ecanon a b).1, E2 := (ecanon a b).2, Reference := (n : Int),
                ToSplit := true, PtId := t.LastPointId + 1, CellId := cellId }
                :: t.EdgeTable,
            LastPointId := t.LastPointId + 1 } := by
    simp [InsertEdgeSplit, habs]
  have hf1 : findEdge (InsertEdgeSplit t a b cellId (n : Int)).1.EdgeTable a b
      = some { E1 := (ecanon a b).1, E2 := (ecanon a b).2, Reference := (n : Int),
               ToSplit := true, PtId := t.LastPointId + 1, CellId := cellId } := by
    simp [hfst, findEdge_cons, edgeKey_mk]
  constructor
  · intro k hk
    obtain ⟨tk, ek, h1, h2, h3, h4, h5⟩ :=
      removeIter_mid a b k (InsertEdgeSplit t a b cellId (n : Int)).1 _ hf1
        (by push_cast; omega)
    refine ⟨tk, h1, ?_, ?_⟩
    · have hck := CheckEdge_of_found tk a b ek h2 h4 (by rw [h5]; simp; omega)
      rw [hck]
    · rw [removeEdge_snd tk a b ek h2, h3]
      congr 1
      push_cast
      ring
  · obtain ⟨tn, h1, h2⟩ :=
      removeIter_absent a b n (InsertEdgeSplit t a b cellId (n : Int)).1 _ hf1 rfl hn
    exact ⟨tn, h1, h2, by simp [CheckEdge, h2]⟩

/-- Closed instance of C3: the scenario edge `(5,9)` with count 2. -/
theorem C3_witness :
    1 ≤ 2 ∧ findEdge emptyTable.EdgeTable 5 9 = none ∧ 0 ≤ emptyTable.LastPointId ∧
    ((∀ k : Nat, k < 2 →
        ∃ tk : GenericEdgeTable,
          removeIter (InsertEdgeSplit emptyTable 5 9 7 (2 : Int)).1 5 9 k = some tk ∧
          (CheckEdge tk 5 9).1 = true ∧
          (RemoveEdge tk 5 9).map (fun tr => tr.2) = some ((2 : Int) - (k + 1))) ∧
     (∃ tn : GenericEdgeTable,
        removeIter (InsertEdgeSplit emptyTable 5 9 7 (2 : Int)).1 5 9 2 = some tn ∧
        findEdge tn.EdgeTable 5 9 = none ∧ CheckEdge tn 5 9 = (false, -1))) :=
  ⟨by decide, by decide, by decide,
   C3_refcount_eviction emptyTable 5 9 7 2 (by decide) (by decide) (by decide)⟩

/-- C4: the spec's concrete scenario — generator seeded with 1000, edge
`(5,9)` split-inserted with reference count 2 mints and returns 1001;
`CheckEdge(9,5)` sees `(true, 1001)`; the first `RemoveEdge` returns 1,
the second returns 0 and evicts, and a final `CheckEdge(5,9)` reports
absence. -/
theorem C4_scenario :
    (InsertEdgeSplit (InitializeTable emptyTable 1000) 5 9 7 2).2 = 1001 ∧
    CheckEdge (InsertEdgeSplit (InitializeTable emptyTable 1000) 5 9 7 2).1 9 5
      = (true, 1001) ∧
    (RemoveEdge (InsertEdgeSplit (InitializeTable emptyTable 1000) 5 9 7 2).1 5 9).map
      (fun tr => tr.2) = some 1 ∧
    (RemoveEdge (applyOp (InsertEdgeSplit (InitializeTable emptyTable 1000) 5 9 7 2).1
        (Op.removeEdge 5 9)) 5 9).map (fun tr => tr.2) = some 0 ∧
    findEdge (applyOp (applyOp (InsertEdgeSplit (InitializeTable emptyTable 1000) 5 9 7 2).1
        (Op.removeEdge 5 9)) (Op.removeEdge 5 9)).EdgeTable 5 9 = none ∧
    CheckEdge (applyOp (applyOp (InsertEdgeSplit (InitializeTable emptyTable 1000) 5 9 7 2).1
        (Op.removeEdge 5 9)) (Op.removeEdge 5 9)) 5 9 = (false, -1) := by
  decide

/-- Any single operation leaves `LastPointId` unchanged or advances it by
exactly one. -/
theorem lastPointId_applyOp_cases (t : GenericEdgeTable) (op : Op) :
    (applyOp t op).LastPointId = t.LastPointId ∨
    (applyOp t op).LastPointId = t.LastPointId + 1 := by
  cases op with
  | insertNoSplit c d cid r =>
      rcases hfd : findEdge t.EdgeTable c d with _ | e2 <;>
        simp [applyOp, InsertEdgeNoSplit, hfd]
  | insertSplit c d cid r =>
      rcases hfd : findEdge t.EdgeTable c d with _ | e2
      · simp [applyOp, InsertEdgeSplit, hfd]
      · by_cases hp : e2.PtId = -1 <;> simp [applyOp, InsertEdgeSplit, hfd, hp]
  | removeEdge c d =>
      rcases hfd : findEdge t.EdgeTable c d with _ | e2
      · simp [applyOp, RemoveEdge, hfd]
      · by_cases hr : e2.Reference - 1 ≤ 0 <;> simp [applyOp, RemoveEdge, hfd, hr]
  | incrRef c d cid =>
      rcases hfd : findEdge t.EdgeTable c d with _ | e2 <;>
        simp [applyOp, IncrementEdgeReferenceCount, hfd]
  | incrLastPointId => simp [applyOp, IncrementLastPointId]

/-- The generator never moves backwards. -/
theorem lastPointId_applyOp_le (t : GenericEdgeTable) (op : Op) :
    t.LastPointId ≤ (applyOp t op).LastPointId := by
  rcases lastPointId_applyOp_cases t op with h | h
  · rw [h]
  · rw [h]
    omega

/-- A minted id sits strictly above the generator before the operation
and at most at the generator after it. -/
theorem opMint_bounds (t : GenericEdgeTable) (op : Op) (x : Int)
    (hx : opMint t op = some x) :
    t.LastPointId < x ∧ x ≤ (applyOp t op).LastPointId := by
  cases op with
  | insertSplit c d cid r =>
      rcases hfd : findEdge t.EdgeTable c d with _ | e2
      · simp only [opMint, hfd] at hx
        injection hx with hx2
        have hlp : (applyOp t (Op.insertSplit c d cid r)).LastPointId
            = t.LastPointId + 1 := by
          simp [applyOp, InsertEdgeSplit, hfd]
        rw [hlp, ← hx2]
        omega
      · by_cases hp : e2.PtId = -1
        · simp only [opMint, hfd, if_pos hp] at hx
          injection hx with hx2
          have hlp : (applyOp t (Op.insertSplit c d cid r)).LastPointId
              = t.LastPointId + 1 := by
            simp [applyOp, InsertEdgeSplit, hfd, hp]
          rw [hlp, ← hx2]
          omega
        · simp [opMint, hfd, hp] at hx
  | insertNoSplit c d cid r => simp [opMint] at hx
  | removeEdge c d => simp [opMint] at hx
  | incrRef c d cid => simp [opMint] at hx
  | incrLastPointId => simp [opMint] at hx

/-- Every id minted along a run exceeds the generator value at its start. -/
theorem mintedIds_gt (ops : List Op) :
    ∀ (t : GenericEdgeTable) (x : Int), x ∈ mintedIds t ops →
      t.LastPointId < x := by
  induction ops with
  | nil => intro t x hx; simp [mintedIds] at hx
  | cons op rest ih =>
      intro t x hx
      rcases hm : opMint t op with _ | pid
      · rw [mintedIds, hm] at hx
        exact lt_of_le_of_lt (lastPointId_applyOp_le t op) (ih _ x hx)
      · rw [mintedIds, hm] at hx
        rcases List.mem_cons.mp hx with hx1 | hx2
        · rw [hx1]
          exact (opMint_bounds t op pid hm).1
        · exact lt_of_le_of_lt (lastPointId_applyOp_le t op) (ih _ x hx2)

/-- Ids minted along a run are strictly increasing in mint order. -/
theorem mintedIds_sorted (ops : List Op) :
    ∀ t : GenericEdgeTable, (mintedIds t ops).Pairwise (· < ·) := by
  induction ops with
  | nil => intro t; simp [mintedIds]
  | cons op rest ih =>
      intro t
      rcases hm : opMint t op with _ | pid
      · rw [mintedIds, hm]
        exact ih _
      · rw [mintedIds, hm]
        refine List.Pairwise.cons ?_ (ih _)
        intro y hy
        have h1 := mintedIds_gt rest (applyOp t op) y hy
        have h2 := (opMint_bounds t op pid hm).2
        omega

/-- C5: within a pass seeded by `Initialize(S)`, `IncrementLastPointId`
advances the generator by exactly one, and every minted midpoint id is
strictly greater than `S` and strictly greater than every id minted
earlier in the pass. -/
theorem C5_id_generator_monotone (t0 : GenericEdgeTable) (S : Int) (ops : List Op) :
    (∀ t : GenericEdgeTable, (IncrementLastPointId t).LastPointId = t.LastPointId + 1) ∧
    (∀ x ∈ mintedIds (InitializeTable t0 S) ops, S < x) ∧
    (mintedIds (InitializeTable t0 S) ops).Pairwise (· < ·) :=
  ⟨fun _ => rfl,
   fun x hx => mintedIds_gt ops (InitializeTable t0 S) x hx,
   mintedIds_sorted ops (InitializeTable t0 S)⟩

/-- Closed instance of C5: seed 1000 and a run minting two ids. -/
theorem C5_witness :
    (∀ t : GenericEdgeTable, (IncrementLastPointId t).LastPointId = t.LastPointId + 1) ∧
    (∀ x ∈ mintedIds (InitializeTable emptyTable 1000)
        [Op.insertSplit 5 9 7 2, Op.insertSplit 9 5 7 2, Op.insertSplit 1 2 7 1],
      (1000 : Int) < x) ∧
    (mintedIds (InitializeTable emptyTable 1000)
        [Op.insertSplit 5 9 7 2, Op.insertSplit 9 5 7 2, Op.insertSplit 1 2 7 1]).Pairwise
      (· < ·) :=
  C5_id_generator_monotone emptyTable 1000
    [Op.insertSplit 5 9 7 2, Op.insertSplit 9 5 7 2, Op.insertSplit 1 2 7 1]

/-- C6: the non-splitting insert is idempotent registration — a silent
no-op when the canonical edge exists, otherwise exactly one new entry
with `ToSplit = false`, `PtId` unset (`-1`) and the supplied reference
count, everything else unchanged. -/
theorem C6_insert_idempotent (t : GenericEdgeTable) (a b cellId : Int) (ref : Int) :
    (∀ e : EdgeEntry, findEdge t.EdgeTable a b = some e →
       InsertEdgeNoSplit t a b cellId ref = t) ∧
    (findEdge t.EdgeTable a b = none →
       InsertEdgeNoSplit t a b cellId ref =
         { t with EdgeTable :=
             { E1 := (ecanon a b).1, E2 := (ecanon a b).2, Reference := ref,
               ToSplit := false, PtId := -1, CellId := cellId } :: t.EdgeTable }) := by
  constructor
  · intro e hf
    simp [InsertEdgeNoSplit, hf]
  · intro hf
    simp [InsertEdgeNoSplit, hf]

/-- Closed instance of C6: a miss creates the entry, a hit is a no-op. -/
theorem C6_witness :
    (findEdge emptyTable.EdgeTable 5 9 = none →
       InsertEdgeNoSplit emptyTable 5 9 7 2 =
         { emptyTable with EdgeTable :=
             { E1 := (ecanon 5 9).1, E2 := (ecanon 5 9).2, Reference := 2,
               ToSplit := false, PtId := -1, CellId := 7 } :: emptyTable.EdgeTable }) ∧
    findEdge emptyTable.EdgeTable 5 9 = none :=
  ⟨(C6_insert_idempotent emptyTable 5 9 7 2).2, by decide⟩

/-- C7: `RemoveEdge` on an absent edge reports the explicit "not found"
error outcome (`none`); it never silently returns a count. -/
theorem C7_remove_absent_errors (t : GenericEdgeTable) (a b : Int)
    (habs : findEdge t.EdgeTable a b = none) : RemoveEdge t a b = none := by
  simp [RemoveEdge, habs]

/-- Closed instance of C7 on the empty table. -/
theorem C7_witness :
    findEdge emptyTable.EdgeTable 5 9 = none ∧ RemoveEdge emptyTable 5 9 = none :=
  ⟨by decide, C7_remove_absent_errors emptyTable 5 9 (by decide)⟩

/-- C8: the point table round-trips exactly — storing a point id with a
coordinate triple and an attribute vector of length `NumberOfComponents`
and reading it back returns precisely the stored values. -/
theorem C8_point_roundtrip (t : GenericEdgeTable) (ptId : Int)
    (coord : Int × Int × Int) (s : List Int)
    (hs : s.length = t.NumberOfComponents.toNat) :
    CheckPoint (InsertPointAndScalar t ptId coord s) ptId = some (coord, s) := by
  have hts : s.take t.NumberOfComponents.toNat = s := by
    rw [← hs, List.take_length]
  simp [CheckPoint, InsertPointAndScalar, findPoint, hts]

/-- Closed instance of C8 with one attribute component. -/
theorem C8_witness :
    ([7] : List Int).length = emptyTable.NumberOfComponents.toNat ∧
    CheckPoint (InsertPointAndScalar emptyTable 42 (1, 2, 3) [7]) 42
      = some ((1, 2, 3), [7]) :=
  ⟨by decide, C8_point_roundtrip emptyTable 42 (1, 2, 3) [7] (by decide)⟩

/-- A heap of raw scalar buffers: an address is an index into the list
and `h.length` is the next fresh address, so `new double[c]` always
yields an address that did not exist before.  `delete[]` needs no model
step: a freed buffer is simply never read again. -/
abbrev Heap := List (List Int)

/-- Dereference a buffer address. -/
def heapRead (h : Heap) (addr : Nat) : List Int := h.getD addr []

/-- `new double[c]` followed by filling the buffer: returns the grown
heap and the fresh address. -/
def heapAlloc (h : Heap) (v : List Int) : Heap × Nat := (h ++ [v], h.length)

/-- `memcpy` into an existing buffer. -/
def heapWrite (h : Heap) (addr : Nat) (v : List Int) : Heap := h.set addr v

/-- `vtkGenericEdgeTable::PointEntry` (vtkGenericEdgeTable.h lines
126-179) with its raw `Scalar` pointer: `Scalar` is the address of a heap
buffer meant to hold `numberOfComponents` doubles. -/
structure PointEntry where
  PointId : Int
  Coord : Int × Int × Int
  Scalar : Nat
  numberOfComponents : Int
  Reference : Int
deriving DecidableEq

/-- The copy constructor `PointEntry(const PointEntry&)` (header lines
146-157): copies `PointId`, the three coordinates, the component count
and the reference count, allocates a new buffer of `numberOfComponents`
doubles and `memcpy`s that many scalars into it. -/
def pointEntryCopy (h : Heap) (other : PointEntry) : Heap × PointEntry :=
  let c := other.numberOfComponents
  let hp := heapAlloc h ((heapRead h other.Scalar).take c.toNat)
  (hp.1,
   { PointId := other.PointId, Coord := other.Coord, Scalar := hp.2,
     numberOfComponents := c, Reference := other.Reference })

/-- The assignment `PointEntry::operator=` (header lines 159-178): after
the self-assignment guard (`this != &other`, modelled by `sameObject`),
copies the plain fields, deletes and reallocates the buffer only when the
component counts differ, then `memcpy`s `other.numberOfComponents`
scalars into the (old or new) buffer. -/
def pointEntryAssign (h : Heap) (self other : PointEntry) (sameObject : Bool) :
    Heap × PointEntry :=
  if sameObject then (h, self)
  else
    let c := other.numberOfComponents
    let src := (heapRead h other.Scalar).take c.toNat
    if self.numberOfComponents ≠ c then
      let hp := heapAlloc h src
      (hp.1,
       { PointId := other.PointId, Coord := other.Coord, Scalar := hp.2,
         numberOfComponents := c, Reference := other.Reference })
    else
      (heapWrite h self.Scalar src,
       { PointId := other.PointId, Coord := other.Coord, Scalar := self.Scalar,
         numberOfComponents := c, Reference := other.Reference })

/-- Reading a freshly allocated buffer returns what was written. -/
theorem heapRead_alloc (h : Heap) (v : List Int) :
    heapRead (h ++ [v]) h.length = v := by
  induction h with
  | nil => rfl
  | cons x xs ih =>
      simp only [List.cons_append, heapRead, List.length_cons, List.getD_cons_succ]
      exact ih

/-- Reading back an overwritten (valid) buffer returns the new value. -/
theorem heapRead_write_self (h : Heap) (addr : Nat) (v : List Int)
    (hlt : addr < h.length) : heapRead (heapWrite h addr v) addr = v := by
  induction h generalizing addr with
  | nil => simp at hlt
  | cons x xs ih =>
      cases addr with
      | zero => rfl
      | succ n =>
          simp only [heapWrite, List.set_cons_succ, heapRead, List.getD_cons_succ]
          exact ih n (by simpa using hlt)

/-- C9 counterexample: assigning between entries whose component counts
are equal (here both 1, buffers 0 and 1 in a two-buffer heap) reuses the
target's pre-existing buffer 0 — the resulting `Scalar` address is below
the pre-call heap size, so the values are NOT stored in a freshly
allocated buffer, refuting the claim for the assignment case. -/
theorem C9_counterexample :
    (pointEntryAssign [[5], [9]]
        { PointId := 1, Coord := (0, 0, 0), Scalar := 0,
          numberOfComponents := 1, Reference := 1 }
        { PointId := 2, Coord := (10, 20, 30), Scalar := 1,
          numberOfComponents := 1, Reference := 2 } false).2.Scalar = 0 ∧
    ¬ (([[5], [9]] : Heap).length ≤
        (pointEntryAssign [[5], [9]]
            { PointId := 1, Coord := (0, 0, 0), Scalar := 0,
              numberOfComponents := 1, Reference := 1 }
            { PointId := 2, Coord := (10, 20, 30), Scalar := 1,
              numberOfComponents := 1, Reference := 2 } false).2.Scalar) := by
  decide

/-- C9 (amended): copy-construction yields an entry whose `PointId`,
`Coord`, `numberOfComponents`, `Reference` and scalar values equal the
source's, in a freshly allocated buffer distinct from the source's;
assignment copies the same fields and values into a buffer distinct from
the source's, but allocates freshly only when the component counts
differ — when they are equal it reuses the target's existing buffer. -/
theorem C9_entry_deep_copy (h : Heap) (self other : PointEntry)
    (hov : other.Scalar < h.length)
    (hwf : (heapRead h other.Scalar).length = other.numberOfComponents.toNat)
    (hsv : self.Scalar < h.length) (hne : self.Scalar ≠ other.Scalar) :
    ((pointEntryCopy h other).2.PointId = other.PointId ∧
     (pointEntryCopy h other).2.Coord = other.Coord ∧
     (pointEntryCopy h other).2.numberOfComponents = other.numberOfComponents ∧
     (pointEntryCopy h other).2.Reference = other.Reference ∧
     heapRead (pointEntryCopy h other).1 (pointEntryCopy h other).2.Scalar
       = heapRead h other.Scalar ∧
     (pointEntryCopy h other).2.Scalar = h.length ∧
     (pointEntryCopy h other).2.Scalar ≠ other.Scalar) ∧
    ((pointEntryAssign h self other false).2.PointId = other.PointId ∧
     (pointEntryAssign h self other false).2.Coord = other.Coord ∧
     (pointEntryAssign h self other false).2.numberOfComponents
       = other.numberOfComponents ∧
     (pointEntryAssign h self other false).2.Reference = other.Reference ∧
     heapRead (pointEntryAssign h self other false).1
         (pointEntryAssign h self other false).2.Scalar = heapRead h other.Scalar ∧
     (pointEntryAssign h self other false).2.Scalar ≠ other.Scalar ∧
     (self.numberOfComponents ≠ other.numberOfComponents →
        (pointEntryAssign h self other false).2.Scalar = h.length) ∧
     (self.numberOfComponents = other.numberOfComponents →
        (pointEntryAssign h self other false).2.Scalar = self.Scalar)) := by
  have htake : (heapRead h other.Scalar).take other.numberOfComponents.toNat
      = heapRead h other.Scalar := by
    rw [← hwf, List.take_length]
  constructor
  · refine ⟨rfl, rfl, rfl, rfl, ?_, rfl, ?_⟩
    · show heapRead (h ++ [(heapRead h other.Scalar).take
          other.numberOfComponents.toNat]) h.length = heapRead h other.Scalar
      rw [heapRead_alloc, htake]
    · show h.length ≠ other.Scalar
      omega
  · by_cases hc : self.numberOfComponents = other.numberOfComponents
    · have hA : pointEntryAssign h self other false
          = (heapWrite h self.Scalar
               ((heapRead h other.Scalar).take other.numberOfComponents.toNat),
             { PointId := other.PointId, Coord := other.Coord, Scalar := self.Scalar,
               numberOfComponents := other.numberOfComponents,
               Reference := other.Reference }) := by
        simp [pointEntryAssign, hc]
      rw [hA]
      refine ⟨rfl, rfl, rfl, rfl, ?_, hne, ?_, fun _ => rfl⟩
      · show heapRead (heapWrite h self.Scalar
            ((heapRead h other.Scalar).take other.numberOfComponents.toNat))
            self.Scalar = heapRead h other.Scalar
        rw [heapRead_write_self h self.Scalar _ hsv, htake]
      · intro hcontra
        exact absurd hc hcontra
    · have hA : pointEntryAssign h self other false
          = (h ++ [(heapRead h other.Scalar).take other.numberOfComponents.toNat],
             { PointId := other.PointId, Coord := other.Coord, Scalar := h.length,
               numberOfComponents := other.numberOfComponents,
               Reference := other.Reference }) := by
        simp [pointEntryAssign, heapAlloc, hc]
      rw [hA]
      refine ⟨rfl, rfl, rfl, rfl, ?_, ?_, fun _ => rfl, ?_⟩
      · show heapRead (h ++ [(heapRead h other.Scalar).take
            other.numberOfComponents.toNat]) h.length = heapRead h other.Scalar
        rw [heapRead_alloc, htake]
      · show h.length ≠ other.Scalar
        omega
      · intro hcontra
        exact absurd hcontra hc

/-- Closed instance of the amended C9 at a concrete two-buffer heap. -/
theorem C9_witness :
    (1 : Nat) < ([[5], [9]] : Heap).length ∧
    (heapRead [[5], [9]] 1).length
      = (({ PointId := 2, Coord := (10, 20, 30), Scalar := 1,
            numberOfComponents := 1, Reference := 2 } : PointEntry)).numberOfComponents.toNat ∧
    (0 : Nat) < ([[5], [9]] : Heap).length ∧ (0 : Nat) ≠ 1 ∧
    heapRead (pointEntryCopy [[5], [9]]
        { PointId := 2, Coord := (10, 20, 30), Scalar := 1,
          numberOfComponents := 1, Reference := 2 }).1
      (pointEntryCopy [[5], [9]]
        { PointId := 2, Coord := (10, 20, 30), Scalar := 1,
          numberOfComponents := 1, Reference := 2 }).2.Scalar
      = heapRead [[5], [9]] 1 ∧
    heapRead (pointEntryAssign [[5], [9]]
        { PointId := 1, Coord := (0, 0, 0), Scalar := 0,
          numberOfComponents := 1, Reference := 1 }
        { PointId := 2, Coord := (10, 20, 30), Scalar := 1,
          numberOfComponents := 1, Reference := 2 } false).1
      (pointEntryAssign [[5], [9]]
        { PointId := 1, Coord := (0, 0, 0), Scalar := 0,
          numberOfComponents := 1, Reference := 1 }
        { PointId := 2, Coord := (10, 20, 30), Scalar := 1,
          numberOfComponents := 1, Reference := 2 } false).2.Scalar
      = heapRead [[5], [9]] 1 :=
  ⟨by decide, by decide, by decide, by decide,
   (C9_entry_deep_copy [[5], [9]]
      { PointId := 1, Coord := (0, 0, 0), Scalar := 0,
        numberOfComponents := 1, Reference := 1 }
      { PointId := 2, Coord := (10, 20, 30), Scalar := 1,
        numberOfComponents := 1, Reference := 2 }
      (by decide) (by decide) (by decide) (by decide)).1.2.2.2.2.1,
   (C9_entry_deep_copy [[5], [9]]
      { PointId := 1, Coord := (0, 0, 0), Scalar := 0,
        numberOfComponents := 1, Reference := 1 }
      { PointId := 2, Coord := (10, 20, 30), Scalar := 1,
        numberOfComponents := 1, Reference := 2 }
      (by decide) (by decide) (by decide) (by decide)).2.2.2.2.2.1⟩

/-- C10: after any (non-self) assignment the target's component count
equals the source's and its buffer holds exactly that many scalars, and
self-assignment leaves the entry and the heap completely unchanged. -/
theorem C10_assign_component_invariant (h : Heap) (self other : PointEntry)
    (hwf : (heapRead h other.Scalar).length = other.numberOfComponents.toNat)
    (hsv : self.Scalar < h.length) :
    (pointEntryAssign h self other false).2.numberOfComponents
        = other.numberOfComponents ∧
    (heapRead (pointEntryAssign h self other false).1
        (pointEntryAssign h self other false).2.Scalar).length
        = other.numberOfComponents.toNat ∧
    pointEntryAssign h self self true = (h, self) := by
  have htake : (heapRead h other.Scalar).take other.numberOfComponents.toNat
      = heapRead h other.Scalar := by
    rw [← hwf, List.take_length]
  by_cases hc : self.numberOfComponents = other.numberOfComponents
  · have hA : pointEntryAssign h self other false
        = (heapWrite h self.Scalar
             ((heapRead h other.Scalar).take other.numberOfComponents.toNat),
           { PointId := other.PointId, Coord := other.Coord, Scalar := self.Scalar,
             numberOfComponents := other.numberOfComponents,
             Reference := other.Reference }) := by
      simp [pointEntryAssign, hc]
    rw [hA]
    refine ⟨rfl, ?_, rfl⟩
    show (heapRead (heapWrite h self.Scalar
        ((heapRead h other.Scalar).take other.numberOfComponents.toNat))
        self.Scalar).length = other.numberOfComponents.toNat
    rw [heapRead_write_self h self.Scalar _ hsv, htake, hwf]
  · have hA : pointEntryAssign h self other false
        = (h ++ [(heapRead h other.Scalar).take other.numberOfComponents.toNat],
           { PointId := other.PointId, Coord := other.Coord, Scalar := h.length,
             numberOfComponents := other.numberOfComponents,
             Reference := other.Reference }) := by
      simp [pointEntryAssign, heapAlloc, hc]
    rw [hA]
    refine ⟨rfl, ?_, rfl⟩
    show (heapRead (h ++ [(heapRead h other.Scalar).take
        other.numberOfComponents.toNat]) h.length).length
        = other.numberOfComponents.toNat
    rw [heapRead_alloc, htake, hwf]

/-- Closed instance of C10 at a concrete two-buffer heap. -/
theorem C10_witness :
    (heapRead [[5], [9]] 1).length
      = (({ PointId := 2, Coord := (10, 20, 30), Scalar := 1,
            numberOfComponents := 1, Reference := 2 } : PointEntry)).numberOfComponents.toNat ∧
    (0 : Nat) < ([[5], [9]] : Heap).length ∧
    ((pointEntryAssign [[5], [9]]
        { PointId := 1, Coord := (0, 0, 0), Scalar := 0,
          numberOfComponents := 1, Reference := 1 }
        { PointId := 2, Coord := (10, 20, 30), Scalar := 1,
          numberOfComponents := 1, Reference := 2 } false).2.numberOfComponents
        = ({ PointId := 2, Coord := (10, 20, 30), Scalar := 1,
             numberOfComponents := 1, Reference := 2 } : PointEntry).numberOfComponents ∧
     (heapRead (pointEntryAssign [[5], [9]]
          { PointId := 1, Coord := (0, 0, 0), Scalar := 0,
            numberOfComponents := 1, Reference := 1 }
          { PointId := 2, Coord := (10, 20, 30), Scalar := 1,
            numberOfComponents := 1, Reference := 2 } false).1
        (pointEntryAssign [[5], [9]]
          { PointId := 1, Coord := (0, 0, 0), Scalar := 0,
            numberOfComponents := 1, Reference := 1 }
          { PointId := 2, Coord := (10, 20, 30), Scalar := 1,
            numberOfComponents := 1, Reference := 2 } false).2.Scalar).length
        = ({ PointId := 2, Coord := (10, 20, 30), Scalar := 1,
             numberOfComponents := 1, Reference := 2 } : PointEntry).numberOfComponents.toNat ∧
     pointEntryAssign [[5], [9]]
        { PointId := 1, Coord := (0, 0, 0), Scalar := 0,
          numberOfComponents := 1, Reference := 1 }
        { PointId := 1, Coord := (0, 0, 0), Scalar := 0,
          numberOfComponents := 1, Reference := 1 } true
        = ([[5], [9]],
           { PointId := 1, Coord := (0, 0, 0), Scalar := 0,
             numberOfComponents := 1, Reference := 1 })) :=
  ⟨by decide, by decide,
   C10_assign_component_invariant [[5], [9]]
     { PointId := 1, Coord := (0, 0, 0), Scalar := 0,
       numberOfComponents := 1, Reference := 1 }
     { PointId := 2, Coord := (10, 20, 30), Scalar := 1,
       numberOfComponents := 1, Reference := 2 }
     (by decide) (by decide)⟩

end VtkGenericEdgeTable
